import Mathlib

/-!
Verification of the `cynic-codegen` core (src/cynic-codegen/src/lib.rs): a
schema-driven code generator that reads a GraphQL schema, indexes its object
types, and emits a Rust query-DSL (one marker struct per object type, one
accessor function per field).

The Rust source is shallowly embedded here:
* GraphQL AST values (`graphql_parser::schema::{Type, Field, ObjectType,
  TypeDefinition, Definition, Document}`) become plain inductives/structures,
  keeping only the components the code consumes (`dsl_for_object` uses only
  `name` and `fields` of an object; `data_from_schema` keys the object by its
  `name`).
* `proc_macro2::TokenStream` values produced via `quote!` become `String`s:
  each `quote!` template is rendered as the corresponding concatenation, with
  interpolated identifiers and literals spliced in at the same positions.
* `std::collections::HashMap<String, ObjectType>` becomes an association list
  with unique keys (`typesInsert` replaces the value at an existing key, as
  `HashMap::insert` does).  The iteration order of the real `HashMap` is
  unspecified — the default `RandomState` hasher is randomly seeded per map
  instance — so every consumer of the index's iteration order is
  parameterised by an `iter` function, constrained (where it matters) to
  enumerate a permutation of the entries.
* The two effectful collaborators of `query_dsl_from_schema`
  (`std::fs::read_to_string` and `graphql_parser::schema::parse_schema`) are
  parameters: the file-read result is an `Except String String` and the
  parser is a function `String → Except String Document`, mirroring the `?`
  propagation through the `From` impls for `Error`.
-/

namespace Cynic

/-- GraphQL type reference (`graphql_parser::schema::Type`): a leaf named
type wrapped in arbitrarily nested list / non-null wrappers. -/
inductive GqlType where
  | NamedType (name : String)
  | ListType (inner : GqlType)
  | NonNullType (inner : GqlType)
deriving DecidableEq, Repr

/-- `graphql_parser::schema::Field` restricted to the components the code
consumes: the wire name and the type reference. -/
structure Field where
  name : String
  field_type : GqlType
deriving DecidableEq, Repr

/-- `graphql_parser::schema::ObjectType` restricted to the components the
code consumes: the type name and the ordered field list. -/
structure ObjectType where
  name : String
  fields : List Field
deriving DecidableEq, Repr

/-- `graphql_parser::schema::TypeDefinition`: the kinds of schema type
definition.  Only the `Object` payload is consumed by the code; the other
variants carry just their name. -/
inductive TypeDefinition where
  | Scalar (name : String)
  | Object (object : ObjectType)
  | Interface (name : String)
  | Union (name : String)
  | Enum (name : String)
  | InputObject (name : String)
deriving DecidableEq, Repr

/-- `graphql_parser::schema::Definition`: a schema-level definition. -/
inductive Definition where
  | SchemaDefinition
  | TypeDefinition (td : TypeDefinition)
  | TypeExtension (name : String)
  | DirectiveDefinition (name : String)
deriving DecidableEq, Repr

/-- `graphql_parser::schema::Document`: an ordered list of definitions. -/
structure Document where
  definitions : List Definition
deriving DecidableEq, Repr

/-- The codegen `Error` enum of lib.rs. -/
inductive Error where
  | IoError (msg : String)
  | ParseError (msg : String)
  | MissingQueryDefinition
deriving DecidableEq, Repr

/-- `field_type_and_scalar_call` of lib.rs: resolves a type reference to the
generated Rust type tokens and, for built-in scalar leaves, the scalar
selector call tokens.  `quote! { Option<#inner> }` etc. are rendered as the
corresponding string concatenations. -/
def field_type_and_scalar_call (gql_type : GqlType) : String × Option String :=
  match gql_type with
  | GqlType.NonNullType inner_type =>
    let r := field_type_and_scalar_call inner_type
    ("Option<" ++ r.1 ++ ">",
     r.2.map (fun expr => "::cynic::selection_set::option(" ++ expr ++ ")"))
  | GqlType.ListType inner_type =>
    let r := field_type_and_scalar_call inner_type
    ("Vec<" ++ r.1 ++ ">",
     r.2.map (fun expr => "::cynic::selection_set::vec(" ++ expr ++ ")"))
  | GqlType.NamedType name =>
    let ft_sf : String × Option String :=
      if name = "String" then ("String", some "string")
      else if name = "Int" then ("i64", some "integer")
      else if name = "Float" then ("f64", some "float")
      else if name = "Boolean" then ("bool", some "boolean")
      else if name = "String" then ("String", some "string")
      else (name, none)
    (ft_sf.1, ft_sf.2.map (fun f => f ++ "()"))

/-- The leaf named type at the bottom of a type reference's wrapper nesting. -/
def leaf_name : GqlType → String
  | GqlType.NamedType n => n
  | GqlType.ListType t => leaf_name t
  | GqlType.NonNullType t => leaf_name t

/-- Modelled from the spec: the external `inflector` crate's
`to_snake_case` used by `select_function_for_field` (the crate is a
collaborator outside this repository).  Per §6, it converts the wire field
name to a lower-case, word-separated convention: an underscore is inserted
before an upper-case letter that follows a lower-case letter or digit, and
every letter is lower-cased. -/
def to_snake_case (s : String) : String :=
  (s.data.foldl
    (fun (acc : String × Option Char) c =>
      if c.isUpper then
        (acc.1 ++
          (match acc.2 with
           | some p => if p.isLower || p.isDigit then "_" else ""
           | none => "") ++ String.singleton c.toLower, some c)
      else (acc.1 ++ String.singleton c, some c))
    ("", none)).1

/-- Rendering of `syn::LitStr::new(&field.name, ..)` inside the emitted
tokens: the wire name surrounded by double quotes, character for
character. -/
def litStr (s : String) : String := "\x22" ++ s ++ "\x22"

/-- `select_function_for_field` of lib.rs: emits one accessor function for a
field, branching on whether the resolver produced a scalar selector.  The
two `quote!` templates are rendered as the corresponding string
concatenations; `#rust_field_name` is `format_ident!("{}",
field.name.to_snake_case())` and `#query_field_name` is the `LitStr` holding
the original wire name. -/
def select_function_for_field (field : Field) (type_lock : String) : String :=
  let query_field_name := litStr field.name
  let rust_field_name := to_snake_case field.name
  let resolved := field_type_and_scalar_call field.field_type
  let field_type := resolved.1
  match resolved.2 with
  | some scalar_call =>
    "pub fn " ++ rust_field_name ++ "(" ++
      ") -> ::cynic::selection_set::SelectionSet<\x27static, " ++
      field_type ++ ", " ++ type_lock ++
      "> \x7b use ::cynic::selection_set::\x7bstring, integer, float, boolean\x7d; " ++
      "::cynic::selection_set::field(" ++ query_field_name ++ ", " ++
      scalar_call ++ ") \x7d"
  | none =>
    "pub fn " ++ rust_field_name ++ "<" ++
      "\x27a, T>(fields: ::cynic::selection_set::SelectionSet<\x27a, T, " ++
      field_type ++
      ">) -> ::cynic::selection_set::SelectionSet<T, " ++ type_lock ++
      "> where T: \x27a \x7b " ++
      "::cynic::selection_set::field(" ++ query_field_name ++ ", fields) \x7d"

/-- The `function_tokens` local of `dsl_for_object`: one accessor per field,
in field-declaration order. -/
def object_function_tokens (object : ObjectType) : List String :=
  object.fields.map (fun f => select_function_for_field f object.name)

/-- `dsl_for_object` of lib.rs: the marker struct named after the object
type followed by an `impl` block holding the accessor functions. -/
def dsl_for_object (object : ObjectType) : String :=
  "pub struct " ++ object.name ++ "; impl " ++ object.name ++ " \x7b " ++
    String.join (object_function_tokens object) ++ " \x7d"

/-- `HashMap::insert` on the association-list model of
`HashMap<String, ObjectType>`: replaces any existing entry for the key. -/
def typesInsert (types : List (String × ObjectType)) (k : String)
    (v : ObjectType) : List (String × ObjectType) :=
  (k, v) :: types.filter (fun kv => kv.1 ≠ k)

/-- `HashMap::get` on the association-list model. -/
def typesLookup (types : List (String × ObjectType)) (k : String) :
    Option ObjectType :=
  (types.find? (fun kv => kv.1 = k)).map (fun kv => kv.2)

/-- The `SchemaData` struct of lib.rs. -/
structure SchemaData where
  types : List (String × ObjectType)
deriving DecidableEq, Repr

/-- The body of the `for definition in document.definitions` loop of
`data_from_schema`: an object-type definition is inserted keyed by its name;
every other kind of definition is ignored. -/
def schema_step (types : List (String × ObjectType)) (d : Definition) :
    List (String × ObjectType) :=
  match d with
  | Definition.TypeDefinition (TypeDefinition.Object object) =>
    typesInsert types object.name object
  | _ => types

/-- `data_from_schema` of lib.rs: a single forward scan over the document's
definitions, inserting each object-type definition into the map keyed by its
name and ignoring every other kind of definition. -/
def data_from_schema (document : Document) : SchemaData :=
  { types := document.definitions.foldl schema_step [] }

/-- The `objects` local of `query_dsl_from_schema`: `dsl_for_object` mapped
over the index's entries in the `HashMap` iteration order `iter`. -/
def emitted_objects (document : Document)
    (iter : List (String × ObjectType) → List (String × ObjectType)) :
    List String :=
  (iter (data_from_schema document).types).map (fun kv => dsl_for_object kv.2)

/-- `query_dsl_from_schema` of lib.rs.  `read_result` models
`std::fs::read_to_string(&input.schema_filename)` (its `?` maps an
`std::io::Error` to `Error::IoError` via the `From` impl), `parse` models
`graphql_parser::schema::parse_schema` (its `?` maps a parse failure to
`Error::ParseError`), and `iter` models the unspecified iteration order of
the `HashMap` inside `SchemaData`.  An error aborts the pass: the `Except`
error carries no generated output. -/
def query_dsl_from_schema (read_result : Except String String)
    (parse : String → Except String Document)
    (iter : List (String × ObjectType) → List (String × ObjectType)) :
    Except Error String :=
  match read_result with
  | Except.error e => Except.error (Error.IoError e)
  | Except.ok schema =>
    match parse schema with
    | Except.error e => Except.error (Error.ParseError e)
    | Except.ok document =>
      Except.ok (String.join (emitted_objects document iter))

/-- The object-type definitions of a definition list, in declaration
order. -/
def objects_in (defs : List Definition) : List ObjectType :=
  defs.filterMap
    (fun d =>
      match d with
      | Definition.TypeDefinition (TypeDefinition.Object o) => some o
      | _ => none)

/-- The last object-type definition named `n` in a definition list: the
entry `data_from_schema` retains for `n` under last-write-wins. -/
def last_object_named (defs : List Definition) (n : String) : Option ObjectType :=
  (objects_in defs).reverse.find? (fun o => o.name = n)

/-- C1: the resolver returns a `some` selector iff the fully-unwrapped leaf
named type is exactly one of the four built-in scalar names
`String`, `Int`, `Float`, `Boolean` (case-sensitive), and `none` for every
other leaf name. -/
theorem c1_scalar_partition (t : GqlType) :
    (field_type_and_scalar_call t).2.isSome = true ↔
      (leaf_name t = "String" ∨ leaf_name t = "Int" ∨
       leaf_name t = "Float" ∨ leaf_name t = "Boolean") := by
  induction t with
  | NamedType name =>
    simp only [field_type_and_scalar_call, leaf_name]
    split_ifs with h1 h2 h3 h4 <;> simp_all
  | ListType inner ih =>
    simpa [field_type_and_scalar_call, leaf_name] using ih
  | NonNullType inner ih =>
    simpa [field_type_and_scalar_call, leaf_name] using ih

/-- C2: resolving `NonNull(inner)` yields `Option<T>` with the selector
wrapped in the optional-value adapter; resolving `List(inner)` yields
`Vec<T>` with the selector wrapped in the sequence adapter; and on
`NonNull(List(Named "Int"))` (and a three-level nesting) the wrapping order
matches the nesting order. -/
theorem c2_wrapper_composition :
    (∀ t : GqlType,
      field_type_and_scalar_call (GqlType.NonNullType t) =
        ("Option<" ++ (field_type_and_scalar_call t).1 ++ ">",
         (field_type_and_scalar_call t).2.map
           (fun expr => "::cynic::selection_set::option(" ++ expr ++ ")"))) ∧
    (∀ t : GqlType,
      field_type_and_scalar_call (GqlType.ListType t) =
        ("Vec<" ++ (field_type_and_scalar_call t).1 ++ ">",
         (field_type_and_scalar_call t).2.map
           (fun expr => "::cynic::selection_set::vec(" ++ expr ++ ")"))) ∧
    field_type_and_scalar_call
        (GqlType.NonNullType (GqlType.ListType (GqlType.NamedType "Int"))) =
      ("Option<Vec<i64>>",
       some ("::cynic::selection_set::option(" ++
             "::cynic::selection_set::vec(integer()))")) ∧
    field_type_and_scalar_call
        (GqlType.NonNullType (GqlType.ListType
          (GqlType.NonNullType (GqlType.NamedType "Int")))) =
      ("Option<Vec<Option<i64>>>",
       some ("::cynic::selection_set::option(" ++
             "::cynic::selection_set::vec(" ++
             "::cynic::selection_set::option(integer())))")) := by
  refine ⟨fun t => rfl, fun t => rfl, ?_, ?_⟩ <;> rfl

/-- C4: for every object type, the emitted accessors appear in exactly the
field-declaration order, one accessor per field, and `dsl_for_object` wraps
them (in that order) inside the marker struct and its `impl` block. -/
theorem c4_field_order (object : ObjectType) :
    (object_function_tokens object).length = object.fields.length
    ∧ (∀ i : Nat, (object_function_tokens object)[i]? =
        (object.fields[i]?).map (fun f => select_function_for_field f object.name))
    ∧ dsl_for_object object =
      "pub struct " ++ object.name ++ "; impl " ++ object.name ++ " \x7b " ++
        String.join (object_function_tokens object) ++ " \x7d" := by
  refine ⟨List.length_map _ _, fun i => ?_, rfl⟩
  simp [object_function_tokens]

/-- C9: every emitted accessor's local identifier is the wire field name
converted to snake case (the identifier ends right before the following
`(` or `<`), and the wire name embedded as the string literal passed to
`field(` is the original schema field name, character for character. -/
theorem c9_accessor_naming (field : Field) (type_lock : String) :
    ∃ mid post,
      select_function_for_field field type_lock =
        "pub fn " ++ to_snake_case field.name ++ "(" ++ mid ++
          "::cynic::selection_set::field(" ++ litStr field.name ++ post
      ∨ select_function_for_field field type_lock =
        "pub fn " ++ to_snake_case field.name ++ "<" ++ mid ++
          "::cynic::selection_set::field(" ++ litStr field.name ++ post := by
  simp only [select_function_for_field]
  cases h : (field_type_and_scalar_call field.field_type).2 with
  | some scalar_call =>
    refine ⟨") -> ::cynic::selection_set::SelectionSet<\x27static, " ++
      (field_type_and_scalar_call field.field_type).1 ++ ", " ++ type_lock ++
      "> \x7b use ::cynic::selection_set::\x7bstring, integer, float, boolean\x7d; ",
      ", " ++ scalar_call ++ ") \x7d", Or.inl ?_⟩
    simp only [String.append_assoc]
  | none =>
    refine ⟨"\x27a, T>(fields: ::cynic::selection_set::SelectionSet<\x27a, T, " ++
      (field_type_and_scalar_call field.field_type).1 ++
      ">) -> ::cynic::selection_set::SelectionSet<T, " ++ type_lock ++
      "> where T: \x27a \x7b ",
      ", fields) \x7d", Or.inr ?_⟩
    simp only [String.append_assoc]

/-- C10: an object type with an empty field list still produces output: the
marker struct plus an `impl` block with no accessors, and the pipeline
succeeds on a document containing only such a type. -/
theorem c10_empty_object (name s : String) :
    object_function_tokens { name := name, fields := [] } = []
    ∧ dsl_for_object { name := name, fields := [] } =
      "pub struct " ++ name ++ "; impl " ++ name ++ " \x7b " ++ "" ++ " \x7d"
    ∧ (query_dsl_from_schema (Except.ok s)
        (fun _ => Except.ok
          { definitions := [Definition.TypeDefinition
              (TypeDefinition.Object { name := name, fields := [] })] })
        id).isOk = true := by
  exact ⟨rfl, rfl, rfl⟩

/-- C7: a field whose leaf named type is not one of the four built-ins
resolves to selector `none` with the literal leaf name as generated type,
the object-branch accessor is emitted for it, and generation succeeds (the
emitter performs no validation). -/
theorem c7_unknown_named_type (name fname type_lock s : String) (doc : Document)
    (iter : List (String × ObjectType) → List (String × ObjectType))
    (h : ¬(name = "String" ∨ name = "Int" ∨ name = "Float" ∨ name = "Boolean")) :
    field_type_and_scalar_call (GqlType.NamedType name) = (name, none)
    ∧ select_function_for_field
        { name := fname, field_type := GqlType.NamedType name } type_lock =
      "pub fn " ++ to_snake_case fname ++ "<" ++
        "\x27a, T>(fields: ::cynic::selection_set::SelectionSet<\x27a, T, " ++
        name ++
        ">) -> ::cynic::selection_set::SelectionSet<T, " ++ type_lock ++
        "> where T: \x27a \x7b " ++
        "::cynic::selection_set::field(" ++ litStr fname ++ ", fields) \x7d"
    ∧ (query_dsl_from_schema (Except.ok s) (fun _ => Except.ok doc) iter).isOk
        = true := by
  push_neg at h
  obtain ⟨h1, h2, h3, h4⟩ := h
  have hr : field_type_and_scalar_call (GqlType.NamedType name) = (name, none) := by
    simp [field_type_and_scalar_call, h1, h2, h3, h4]
  refine ⟨hr, ?_, rfl⟩
  simp [select_function_for_field, hr]

/-- Closed witness for `c7_unknown_named_type` at the spec's example input
`MyCustomType`. -/
theorem c7_unknown_named_type_witness :
    field_type_and_scalar_call (GqlType.NamedType "MyCustomType") =
      ("MyCustomType", none)
    ∧ select_function_for_field
        { name := "someField", field_type := GqlType.NamedType "MyCustomType" }
        "Query" =
      "pub fn " ++ to_snake_case "someField" ++ "<" ++
        "\x27a, T>(fields: ::cynic::selection_set::SelectionSet<\x27a, T, " ++
        "MyCustomType" ++
        ">) -> ::cynic::selection_set::SelectionSet<T, " ++ "Query" ++
        "> where T: \x27a \x7b " ++
        "::cynic::selection_set::field(" ++ litStr "someField" ++
        ", fields) \x7d"
    ∧ (query_dsl_from_schema (Except.ok "")
        (fun _ => Except.ok { definitions := [] }) id).isOk = true :=
  c7_unknown_named_type "MyCustomType" "someField" "Query" ""
    { definitions := [] } id (by decide)

/-- Filtering out the entries of key `k` does not change the first entry
found for any other key `n`. -/
theorem find?_filter_ne (m : List (String × ObjectType)) (k n : String)
    (h : n ≠ k) :
    (m.filter (fun kv => kv.1 ≠ k)).find? (fun kv => kv.1 = n) =
      m.find? (fun kv => kv.1 = n) := by
  induction m with
  | nil => rfl
  | cons a l ih =>
    by_cases hk : a.1 = k
    · rw [List.filter_cons_of_neg (by simp [hk]), ih,
        List.find?_cons_of_neg _
          (by simp only [decide_eq_true_eq]
              exact fun he => h (he.symm.trans hk))]
    · by_cases hn : a.1 = n
      · rw [List.filter_cons_of_pos (by simp [hk]),
          List.find?_cons_of_pos _ (by simp [hn]),
          List.find?_cons_of_pos _ (by simp [hn])]
      · rw [List.filter_cons_of_pos (by simp [hk]),
          List.find?_cons_of_neg _ (by simp [hn]),
          List.find?_cons_of_neg _ (by simp [hn]), ih]

/-- `HashMap::insert` semantics on the model: looking up the inserted key
yields the new value; every other key is unaffected. -/
theorem typesLookup_insert (m : List (String × ObjectType)) (k : String)
    (v : ObjectType) (n : String) :
    typesLookup (typesInsert m k v) n =
      if n = k then some v else typesLookup m n := by
  by_cases h : n = k
  · subst h
    simp only [typesLookup, typesInsert, if_pos rfl]
    rw [List.find?_cons_of_pos _ (by simp)]
    simp
  · rw [if_neg h]
    simp only [typesLookup, typesInsert]
    rw [List.find?_cons_of_neg _
        (by simp only [decide_eq_true_eq]
            exact fun he => h he.symm),
      find?_filter_ne m k n h]

/-- The index built by folding `schema_step` resolves a name to the last
object-type definition with that name, falling back to the accumulator. -/
theorem lookup_foldl (defs : List Definition) :
    ∀ (acc : List (String × ObjectType)) (n : String),
      typesLookup (defs.foldl schema_step acc) n =
        (last_object_named defs n).or (typesLookup acc n) := by
  induction defs with
  | nil =>
    intro acc n
    simp [last_object_named, objects_in, Option.none_or]
  | cons d ds ih =>
    intro acc n
    rw [List.foldl_cons]
    cases d with
    | SchemaDefinition =>
      simpa [schema_step, last_object_named, objects_in] using ih acc n
    | TypeExtension name =>
      simpa [schema_step, last_object_named, objects_in] using ih acc n
    | DirectiveDefinition name =>
      simpa [schema_step, last_object_named, objects_in] using ih acc n
    | TypeDefinition td =>
      cases td with
      | Object o =>
        rw [show schema_step acc
              (Definition.TypeDefinition (TypeDefinition.Object o)) =
            typesInsert acc o.name o from rfl, ih, typesLookup_insert]
        have hone : List.find? (fun x => x.name = n) [o] =
            (if o.name = n then some o else none) := by
          by_cases h : o.name = n
          · rw [List.find?_cons_of_pos _ (by simp [h]), if_pos h]
          · rw [List.find?_cons_of_neg _ (by simp [h]), if_neg h]; rfl
        have hsplit :
            last_object_named
                (Definition.TypeDefinition (TypeDefinition.Object o) :: ds) n =
              (last_object_named ds n).or
                (if o.name = n then some o else none) := by
          simp only [last_object_named, objects_in, List.filterMap_cons]
          rw [List.reverse_cons, List.find?_append, hone]
        rw [hsplit, Option.or_assoc]
        congr 1
        by_cases h : n = o.name
        · rw [if_pos h, if_pos h.symm]; rfl
        · rw [if_neg h, if_neg (fun he => h he.symm), Option.none_or]
      | Scalar name =>
        simpa [schema_step, last_object_named, objects_in] using ih acc n
      | Interface name =>
        simpa [schema_step, last_object_named, objects_in] using ih acc n
      | Union name =>
        simpa [schema_step, last_object_named, objects_in] using ih acc n
      | Enum name =>
        simpa [schema_step, last_object_named, objects_in] using ih acc n
      | InputObject name =>
        simpa [schema_step, last_object_named, objects_in] using ih acc n

/-- The `TypeIndex` lookup of `data_from_schema` is last-write-wins: it
resolves a name to the last object-type definition carrying that name. -/
theorem lookup_data_from_schema (doc : Document) (n : String) :
    typesLookup (data_from_schema doc).types n =
      last_object_named doc.definitions n := by
  simpa [typesLookup, Option.or_none] using lookup_foldl doc.definitions [] n

/-- Every entry of the index built by folding `schema_step` either came from
the accumulator or is an object-type definition of the scanned list, keyed
by its own name. -/
theorem mem_types_foldl (defs : List Definition) :
    ∀ (acc : List (String × ObjectType)) (kv : String × ObjectType),
      kv ∈ defs.foldl schema_step acc →
        kv ∈ acc ∨ (kv.1 = kv.2.name ∧ kv.2 ∈ objects_in defs) := by
  induction defs with
  | nil => intro acc kv h; exact Or.inl h
  | cons d ds ih =>
    intro acc kv h
    rw [List.foldl_cons] at h
    rcases ih _ kv h with hacc | hrec
    · cases d with
      | TypeDefinition td =>
        cases td with
        | Object o =>
          rcases List.mem_cons.mp hacc with heq | hfil
          · subst heq
            exact Or.inr ⟨rfl, by simp [objects_in, List.filterMap_cons]⟩
          · exact Or.inl (List.mem_of_mem_filter hfil)
        | Scalar name => exact Or.inl hacc
        | Interface name => exact Or.inl hacc
        | Union name => exact Or.inl hacc
        | Enum name => exact Or.inl hacc
        | InputObject name => exact Or.inl hacc
      | SchemaDefinition => exact Or.inl hacc
      | TypeExtension name => exact Or.inl hacc
      | DirectiveDefinition name => exact Or.inl hacc
    · refine Or.inr ⟨hrec.1, ?_⟩
      cases d with
      | TypeDefinition td =>
        cases td with
        | Object o => simp [objects_in, List.filterMap_cons]; right; simpa [objects_in] using hrec.2
        | Scalar name => simpa [objects_in, List.filterMap_cons] using hrec.2
        | Interface name => simpa [objects_in, List.filterMap_cons] using hrec.2
        | Union name => simpa [objects_in, List.filterMap_cons] using hrec.2
        | Enum name => simpa [objects_in, List.filterMap_cons] using hrec.2
        | InputObject name => simpa [objects_in, List.filterMap_cons] using hrec.2
      | SchemaDefinition => simpa [objects_in, List.filterMap_cons] using hrec.2
      | TypeExtension name => simpa [objects_in, List.filterMap_cons] using hrec.2
      | DirectiveDefinition name => simpa [objects_in, List.filterMap_cons] using hrec.2

/-- `typesInsert` preserves distinctness of the keys. -/
theorem nodup_keys_insert (m : List (String × ObjectType)) (k : String)
    (v : ObjectType) (h : (m.map Prod.fst).Nodup) :
    ((typesInsert m k v).map Prod.fst).Nodup := by
  simp only [typesInsert, List.map_cons, List.nodup_cons]
  refine ⟨?_, ((List.filter_sublist m).map Prod.fst).nodup h⟩
  intro hmem
  rcases List.mem_map.mp hmem with ⟨kv, hkv, hfst⟩
  have := List.of_mem_filter hkv
  simp [hfst] at this

/-- The index built by folding `schema_step` has distinct keys. -/
theorem nodup_keys_foldl (defs : List Definition) :
    ∀ (acc : List (String × ObjectType)),
      (acc.map Prod.fst).Nodup →
      ((defs.foldl schema_step acc).map Prod.fst).Nodup := by
  induction defs with
  | nil => intro acc h; exact h
  | cons d ds ih =>
    intro acc h
    rw [List.foldl_cons]
    cases d with
    | TypeDefinition td =>
      cases td with
      | Object o => exact ih _ (nodup_keys_insert acc o.name o h)
      | Scalar name => exact ih _ h
      | Interface name => exact ih _ h
      | Union name => exact ih _ h
      | Enum name => exact ih _ h
      | InputObject name => exact ih _ h
    | SchemaDefinition => exact ih _ h
    | TypeExtension name => exact ih _ h
    | DirectiveDefinition name => exact ih _ h

/-- With distinct keys, membership determines the lookup result. -/
theorem lookup_of_mem (m : List (String × ObjectType))
    (h : (m.map Prod.fst).Nodup) (kv : String × ObjectType) (hm : kv ∈ m) :
    typesLookup m kv.1 = some kv.2 := by
  induction m with
  | nil => cases hm
  | cons a l ih =>
    rcases List.mem_cons.mp hm with heq | hl
    · subst heq
      simp [typesLookup, List.find?_cons]
    · have hne : ¬ a.1 = kv.1 := by
        intro he
        exact (List.nodup_cons.mp h).1
          (he ▸ List.mem_map_of_mem Prod.fst hl)
      have := ih (List.nodup_cons.mp h).2 hl
      simpa [typesLookup, List.find?_cons, hne] using this

/-- C5: the `TypeIndex` built by `data_from_schema` contains exactly the
object-type definitions of the document, keyed by their names: a name
resolves iff some object-type definition carries it, and every entry is an
object-type definition of the document keyed by its own name — so every
non-object definition is absent, and (the function being total) none causes
an error. -/
theorem c5_index_exactly_objects (doc : Document) (n : String)
    (kv : String × ObjectType)
    (hkv : kv ∈ (data_from_schema doc).types) :
    ((typesLookup (data_from_schema doc).types n).isSome = true ↔
      ∃ o ∈ objects_in doc.definitions, o.name = n)
    ∧ kv.1 = kv.2.name ∧ kv.2 ∈ objects_in doc.definitions := by
  refine ⟨?_, ?_⟩
  · rw [lookup_data_from_schema]
    unfold last_object_named
    simp only [List.find?_isSome, List.mem_reverse, decide_eq_true_eq]
  · rcases mem_types_foldl doc.definitions [] kv hkv with h | h
    · simp at h
    · exact ⟨h.1, h.2⟩

/-- Closed witness for `c5_index_exactly_objects`: a document holding one
scalar and one object definition, probed at the object's name and entry. -/
theorem c5_index_exactly_objects_witness :
    ("Post", ({ name := "Post", fields := [] } : ObjectType)) ∈
      (data_from_schema { definitions :=
        [Definition.TypeDefinition (TypeDefinition.Scalar "DateTime"),
         Definition.TypeDefinition (TypeDefinition.Object
           { name := "Post", fields := [] })] }).types
    ∧ (((typesLookup (data_from_schema { definitions :=
          [Definition.TypeDefinition (TypeDefinition.Scalar "DateTime"),
           Definition.TypeDefinition (TypeDefinition.Object
             { name := "Post", fields := [] })] }).types "Post").isSome = true ↔
        ∃ o ∈ objects_in
          [Definition.TypeDefinition (TypeDefinition.Scalar "DateTime"),
           Definition.TypeDefinition (TypeDefinition.Object
             { name := "Post", fields := [] })], o.name = "Post")
      ∧ ("Post", ({ name := "Post", fields := [] } : ObjectType)).1 =
          ("Post", ({ name := "Post", fields := [] } : ObjectType)).2.name
      ∧ ("Post", ({ name := "Post", fields := [] } : ObjectType)).2 ∈
          objects_in
            [Definition.TypeDefinition (TypeDefinition.Scalar "DateTime"),
             Definition.TypeDefinition (TypeDefinition.Object
               { name := "Post", fields := [] })]) :=
  ⟨by decide,
   c5_index_exactly_objects
     { definitions :=
        [Definition.TypeDefinition (TypeDefinition.Scalar "DateTime"),
         Definition.TypeDefinition (TypeDefinition.Object
           { name := "Post", fields := [] })] }
     "Post"
     ("Post", { name := "Post", fields := [] })
     (by decide)⟩

/-- C6: when two object-type definitions share a name (and no later
definition reuses it), the index retains only the later one; the earlier
definition is not the value of any entry, hence never reaches
`dsl_for_object` under any iteration order of the index. -/
theorem c6_duplicate_type_names (d : Document)
    (pre mids posts : List Definition) (o1 o2 : ObjectType)
    (kv : String × ObjectType)
    (iter : List (String × ObjectType) → List (String × ObjectType))
    (hd : d.definitions =
      pre ++ Definition.TypeDefinition (TypeDefinition.Object o1) ::
        (mids ++ Definition.TypeDefinition (TypeDefinition.Object o2) :: posts))
    (hname : o1.name = o2.name) (hne : o1 ≠ o2)
    (hpost : ∀ o ∈ objects_in posts, o.name ≠ o2.name)
    (hkv : kv ∈ (data_from_schema d).types)
    (hiter : (iter (data_from_schema d).types).Perm
      (data_from_schema d).types) :
    typesLookup (data_from_schema d).types o1.name = some o2
    ∧ kv.2 ≠ o1
    ∧ o1 ∉ (iter (data_from_schema d).types).map (fun e => e.2) := by
  have hlook : typesLookup (data_from_schema d).types o1.name = some o2 := by
    rw [lookup_data_from_schema, hd, hname]
    have hq : (objects_in posts).reverse.find?
        (fun o => o.name = o2.name) = none := by
      rw [List.find?_eq_none]
      intro x hx
      simp only [List.mem_reverse] at hx
      simp only [decide_eq_true_eq]
      exact hpost x hx
    unfold last_object_named
    rw [show objects_in
          (pre ++ Definition.TypeDefinition (TypeDefinition.Object o1) ::
            (mids ++ Definition.TypeDefinition (TypeDefinition.Object o2) ::
              posts)) =
        objects_in pre ++ o1 ::
          (objects_in mids ++ o2 :: objects_in posts) from by
      simp [objects_in, List.filterMap_append, List.filterMap_cons]]
    simp only [List.reverse_append, List.reverse_cons, List.find?_append]
    rw [hq, List.find?_cons_of_pos _ (by simp)]
    rfl
  have hcoh : ∀ e ∈ (data_from_schema d).types, e.2 ≠ o1 := by
    intro e he hee
    rcases mem_types_foldl d.definitions [] e he with h | h
    · simp at h
    · have hkey : e.1 = o1.name := by rw [h.1, hee]
      have hnodup := nodup_keys_foldl d.definitions [] (by simp)
      have hlk := lookup_of_mem _ hnodup e he
      rw [hkey] at hlk
      have ho : o2 = e.2 := by injection hlook.symm.trans hlk
      rw [hee] at ho
      exact hne ho.symm
  refine ⟨hlook, hcoh kv hkv, ?_⟩
  intro hmem
  rcases List.mem_map.mp hmem with ⟨e, he, hee⟩
  exact hcoh e (hiter.mem_iff.mp he) hee

/-- Closed witness for `c6_duplicate_type_names`: two `Post` definitions,
the first with a field, the second empty; the index keeps the empty one. -/
theorem c6_duplicate_type_names_witness :
    typesLookup (data_from_schema { definitions :=
        [Definition.TypeDefinition (TypeDefinition.Object
           { name := "Post",
             fields := [{ name := "title",
                          field_type := GqlType.NamedType "String" }] }),
         Definition.TypeDefinition (TypeDefinition.Object
           { name := "Post", fields := [] })] }).types
      ({ name := "Post",
         fields := [{ name := "title",
                      field_type := GqlType.NamedType "String" }] } :
        ObjectType).name =
      some { name := "Post", fields := [] }
    ∧ ("Post", ({ name := "Post", fields := [] } : ObjectType)).2 ≠
        { name := "Post",
          fields := [{ name := "title",
                       field_type := GqlType.NamedType "String" }] }
    ∧ ({ name := "Post",
         fields := [{ name := "title",
                      field_type := GqlType.NamedType "String" }] } :
        ObjectType) ∉
        (id (data_from_schema { definitions :=
          [Definition.TypeDefinition (TypeDefinition.Object
             { name := "Post",
               fields := [{ name := "title",
                            field_type := GqlType.NamedType "String" }] }),
           Definition.TypeDefinition (TypeDefinition.Object
             { name := "Post", fields := [] })] }).types).map
          (fun e => e.2) :=
  c6_duplicate_type_names
    { definitions :=
        [Definition.TypeDefinition (TypeDefinition.Object
           { name := "Post",
             fields := [{ name := "title",
                          field_type := GqlType.NamedType "String" }] }),
         Definition.TypeDefinition (TypeDefinition.Object
           { name := "Post", fields := [] })] }
    [] [] []
    { name := "Post",
      fields := [{ name := "title",
                   field_type := GqlType.NamedType "String" }] }
    { name := "Post", fields := [] }
    ("Post", { name := "Post", fields := [] })
    id rfl rfl (by decide) (by decide) (by decide)
    (List.Perm.refl _)

/-- C8: `query_dsl_from_schema` errs exactly when the file read fails (an
`IoError` wrapping the underlying reason) or the parser rejects the
document (a `ParseError` wrapping the parser's reason); on success it
returns the full emission (the `Except` error constructor carries no
output, so an error aborts the pass with no partial output); and
`MissingQueryDefinition` is never produced on any input. -/
theorem c8_error_taxonomy :
    (∀ (e : String) (parse : String → Except String Document)
        (iter : List (String × ObjectType) → List (String × ObjectType)),
      query_dsl_from_schema (Except.error e) parse iter =
        Except.error (Error.IoError e)) ∧
    (∀ (s p : String) (parse : String → Except String Document)
        (iter : List (String × ObjectType) → List (String × ObjectType)),
      parse s = Except.error p →
      query_dsl_from_schema (Except.ok s) parse iter =
        Except.error (Error.ParseError p)) ∧
    (∀ (s : String) (doc : Document)
        (parse : String → Except String Document)
        (iter : List (String × ObjectType) → List (String × ObjectType)),
      parse s = Except.ok doc →
      query_dsl_from_schema (Except.ok s) parse iter =
        Except.ok (String.join (emitted_objects doc iter))) ∧
    (∀ (read_result : Except String String)
        (parse : String → Except String Document)
        (iter : List (String × ObjectType) → List (String × ObjectType)),
      query_dsl_from_schema read_result parse iter ≠
        Except.error Error.MissingQueryDefinition) := by
  refine ⟨fun e parse iter => rfl, ?_, ?_, ?_⟩
  · intro s p parse iter hp
    simp [query_dsl_from_schema, hp]
  · intro s doc parse iter hp
    simp [query_dsl_from_schema, hp]
  · intro read_result parse iter
    cases read_result with
    | error e => simp [query_dsl_from_schema]
    | ok s =>
      cases hp : parse s with
      | error p => simp [query_dsl_from_schema, hp]
      | ok doc => simp [query_dsl_from_schema, hp]

/-- Closed witness for `c8_error_taxonomy`: a failing read, a failing parse
and the dead error kind, each at a concrete input. -/
theorem c8_error_taxonomy_witness :
    query_dsl_from_schema (Except.error "no such file")
        (fun _ => Except.ok { definitions := [] }) id =
      Except.error (Error.IoError "no such file")
    ∧ query_dsl_from_schema (Except.ok "type Post")
        (fun _ => Except.error "syntax error") id =
      Except.error (Error.ParseError "syntax error")
    ∧ query_dsl_from_schema (Except.ok "type Post")
        (fun _ => Except.ok { definitions := [] }) id ≠
      Except.error Error.MissingQueryDefinition :=
  ⟨c8_error_taxonomy.1 "no such file" (fun _ => Except.ok { definitions := [] }) id,
   c8_error_taxonomy.2.1 "type Post" "syntax error"
     (fun _ => Except.error "syntax error") id rfl,
   c8_error_taxonomy.2.2.2 (Except.ok "type Post")
     (fun _ => Except.ok { definitions := [] }) id⟩

/-- C3 as stated is false on the code: the generated output is a function of
the schema text AND of the `HashMap` iteration order, which the standard
library leaves unspecified (randomly seeded per map instance).  With two
object types in the schema, two valid iteration orders (both permutations
of the index entries) give different bytes. -/
theorem c3_determinism_counterexample :
    (List.reverse ((data_from_schema { definitions :=
        [Definition.TypeDefinition (TypeDefinition.Object
           { name := "A", fields := [] }),
         Definition.TypeDefinition (TypeDefinition.Object
           { name := "B", fields := [] })] }).types)).Perm
      ((data_from_schema { definitions :=
        [Definition.TypeDefinition (TypeDefinition.Object
           { name := "A", fields := [] }),
         Definition.TypeDefinition (TypeDefinition.Object
           { name := "B", fields := [] })] }).types)
    ∧ query_dsl_from_schema (Except.ok "schema")
        (fun _ => Except.ok { definitions :=
          [Definition.TypeDefinition (TypeDefinition.Object
             { name := "A", fields := [] }),
           Definition.TypeDefinition (TypeDefinition.Object
             { name := "B", fields := [] })] }) id ≠
      query_dsl_from_schema (Except.ok "schema")
        (fun _ => Except.ok { definitions :=
          [Definition.TypeDefinition (TypeDefinition.Object
             { name := "A", fields := [] }),
           Definition.TypeDefinition (TypeDefinition.Object
             { name := "B", fields := [] })] }) List.reverse := by
  refine ⟨by decide, fun he => ?_⟩
  simp only [query_dsl_from_schema] at he
  injection he with hj
  exact absurd hj (by decide)

/-- C3 amended: two runs on the same schema text agree up to the index's
iteration order — they fail identically, and on success each output is the
concatenation of the same multiset of per-object blocks (so byte-identical
whenever the index has at most one entry, but not in general). -/
theorem c3_amended_determinism (read_result : Except String String)
    (parse : String → Except String Document)
    (iter1 iter2 : List (String × ObjectType) → List (String × ObjectType))
    (h1 : ∀ l, (iter1 l).Perm l) (h2 : ∀ l, (iter2 l).Perm l) :
    (∀ e : Error,
      query_dsl_from_schema read_result parse iter1 = Except.error e ↔
      query_dsl_from_schema read_result parse iter2 = Except.error e)
    ∧ (∀ (s : String) (doc : Document), read_result = Except.ok s →
        parse s = Except.ok doc →
        query_dsl_from_schema read_result parse iter1 =
          Except.ok (String.join (emitted_objects doc iter1))
        ∧ (emitted_objects doc iter1).Perm (emitted_objects doc iter2)) := by
  constructor
  · intro e
    cases read_result with
    | error e2 => exact Iff.rfl
    | ok s =>
      cases hp : parse s with
      | error p => simp [query_dsl_from_schema, hp]
      | ok doc => simp [query_dsl_from_schema, hp]
  · intro s doc hs hp
    subst hs
    refine ⟨by simp [query_dsl_from_schema, hp], ?_⟩
    have hperm := ((h1 ((data_from_schema doc).types)).trans
      (h2 ((data_from_schema doc).types)).symm).map
        (fun kv => dsl_for_object kv.2)
    simpa [emitted_objects] using hperm

/-- Closed witness for `c3_amended_determinism` at the identity iteration
order on a concrete successful run. -/
theorem c3_amended_determinism_witness :
    query_dsl_from_schema (Except.ok "schema")
        (fun _ => Except.ok { definitions := [] }) id =
      Except.ok (String.join (emitted_objects { definitions := [] } id))
    ∧ (emitted_objects { definitions := [] } id).Perm
        (emitted_objects { definitions := [] } id) :=
  (c3_amended_determinism (Except.ok "schema")
      (fun _ => Except.ok { definitions := [] }) id id
      (fun l => List.Perm.refl l) (fun l => List.Perm.refl l)).2
    "schema" { definitions := [] } rfl rfl

end Cynic
